import Mathlib

/-!
# Verification of the YOLACT composite training loss (`loss/loss_yolact.py`)

Shallow embedding of the loss computation of `YOLACTLoss` over exact real
arithmetic.  Machine floats are modelled as real numbers; TensorFlow tensors
are modelled as (nested) lists; the per-anchor integer data (class target,
positiveness flag, matched object index) are modelled as naturals, matching
the exact 0/1 comparisons `positiveness == 1` / `positiveness == 0` performed
by the source.

Layout notes:
* `[B, A, ...]`-shaped per-anchor tensors are modelled as a batch of images,
  each carrying a list of per-anchor records (`Anchor`).  The source flattens
  `[B, A]` to `[B*A]` in row-major order for the localization and
  classification losses; that flattening is `joinAnchors`.
* `pred_seg` (`[B, Hs, Ws, C]`) is modelled per image in channel-major form
  (`List Grid`, one `Hs × Ws` grid per class channel).  The source's
  transposes in `_loss_semantic_segmentation` are pure layout moves around a
  channel-indexed scatter followed by a full elementwise reduction, which is
  layout independent.
* `tf.image.resize` (bilinear) is external TensorFlow library code; it is
  taken as an explicit function parameter `resize : Grid → ℕ → Grid`
  (mask, target side length `seg_shape`).  Every theorem quantifies over it.
* `utils.map_to_center_form` and `utils.crop` live in the repository's
  `utils` module, which is not part of the sources here; they are modelled
  from the specification's contracts (see their doc comments).
* `tf.tensor_scatter_nd_update` is modelled applying updates in order, so on
  duplicate indices the last update wins.
-/

set_option maxHeartbeats 1000000

noncomputable section

namespace Yolact

/-- A spatial map (`rows × cols` of scalars). -/
abbrev Grid := List (List ℝ)

/-- Per-anchor data: the anchor's slice of `pred_cls`, `pred_offset`,
`pred_mask_coef`, `cls_targets`, `box_targets`, `positiveness` and
`max_id_for_anchors`. -/
structure Anchor where
  predCls : List ℝ
  predOff : List ℝ
  predCoef : List ℝ
  gtCls : ℕ
  gtOff : List ℝ
  pos : ℕ
  maxId : ℕ

/-- Per-image data: the anchors plus `proto_out` (`[Hm, Wm, K]`, a grid of
K-vectors), `seg` (channel-major `[C, Hs, Ws]`), `mask_target`
(`[Mmax, Hm, Wm]`), `classes` (`[Mmax]`), `num_obj` and `bbox_for_norm`
(`[Mmax, 4]`, corner-form boxes stored as 4-element lists). -/
structure Image where
  anchors : List Anchor
  proto : List (List (List ℝ))
  seg : List Grid
  masks : List Grid
  classes : List ℕ
  numObj : ℕ
  bboxNorm : List (List ℝ)

/-- Configuration of `YOLACTLoss.__init__`, with the source's defaults. -/
structure Config where
  num_classes : ℕ
  classification_loss_weight : ℝ := 1
  box_prediction_loss_weight : ℝ := 1.5
  mask_loss_weight : ℝ := 6.125
  segmentation_loss_weight : ℝ := 1
  neg_pos_ratio : ℕ := 3
  max_masks_for_train : ℕ := 100

/-- `YOLACTLoss.__init__` evaluated with only `num_classes` supplied:
all other fields keep their default values. -/
def defaultConfig (C : ℕ) : Config := { num_classes := C }

/-- Flattening of the per-anchor tensors from `[B, A]` to `[B * A]`
(row-major), as done by `tf.reshape`/`tf.gather_nd` in the source. -/
def joinAnchors (batch : List Image) : List Anchor :=
  (batch.map Image.anchors).flatten

/-! ## Localization loss (`_loss_location`) -/

/-- Elementwise Huber loss with `delta = 1`
(`tf.keras.losses.Huber(delta=1.)`): quadratic `0.5·e²` for `|e| ≤ 1`,
linear `|e| − 0.5` beyond. -/
def huber (e : ℝ) : ℝ := if |e| ≤ 1 then 0.5 * e ^ 2 else |e| - 0.5

/-- One Keras `Huber(reduction=NONE)` output entry for a `[4]`-offset pair:
Keras losses reduce the last axis by its MEAN, so this is the mean of the
elementwise Huber values over the coordinates (`error = y_pred − y_true`). -/
def kerasHuber (gt pred : List ℝ) : ℝ :=
  let l := List.zipWith (fun g p => huber (p - g)) gt pred
  l.sum / l.length

/-- The positive anchors: `tf.where(positiveness == 1)` followed by
`tf.gather`/`tf.gather_nd`, which keeps the original order. -/
def posAnchors (l : List Anchor) : List Anchor := l.filter (fun a => a.pos == 1)

/-- `num_pos`: the number of positive anchors in the flattened batch.  This
is the division denominator of `_loss_location` (`tf.shape(gt_offset)[0]`)
and of `_loss_class` (`tf.shape(pos_gt)[0]`). -/
def numPos (l : List Anchor) : ℕ := (posAnchors l).length

/-- `_loss_location`: sum of the Keras Huber outputs over the positive
anchors of the whole (flattened) batch, divided by `num_pos`. -/
def lossLoc (l : List Anchor) : ℝ :=
  ((posAnchors l).map (fun a => kerasHuber a.gtOff a.predOff)).sum / (numPos l : ℝ)

/-! ## Classification loss (`_loss_class`) -/

/-- `log(sum(exp(l)))` over a logit vector. -/
def logsumexp (l : List ℝ) : ℝ := Real.log ((l.map Real.exp).sum)

/-- `tf.nn.softmax_cross_entropy_with_logits(labels, logits)`:
`−Σᵢ labelsᵢ · log softmax(logits)ᵢ = Σᵢ labelsᵢ · (logsumexp(logits) − logitsᵢ)`. -/
def softmaxCE (labels logits : List ℝ) : ℝ :=
  (List.zipWith (fun y x => y * (logsumexp logits - x)) labels logits).sum

/-- `tf.one_hot(k, depth := C)`.  Out-of-range `k` yields the all-zero
vector, exactly as `tf.one_hot` does. -/
def oneHot (C k : ℕ) : List ℝ :=
  (List.range C).map (fun i => if i = k then 1 else 0)

/-- The negative anchors: `tf.where(positiveness == 0)`; anchors whose flag
is neither 0 nor 1 fall in neither set. -/
def negAnchors (l : List Anchor) : List Anchor := l.filter (fun a => a.pos == 0)

/-- The source's hard-negative score.  The comment in the source says
"apply softmax on the pred_cls", but the code sets
`neg_softmax = neg_pred_cls` without applying softmax, so the score actually
computed is `−log` of the RAW class-0 logit (`-1 * tf.math.log(neg_softmax[:, 0])`). -/
def negScore (a : Anchor) : ℝ := -Real.log (a.predCls.headD 0)

/-- Insertion into a descending-by-`negScore` list, placing the new anchor
after existing anchors of equal score. -/
def insertNegDesc (a : Anchor) : List Anchor → List Anchor
  | [] => [a]
  | b :: bs => if negScore b < negScore a then a :: b :: bs else b :: insertNegDesc a bs

/-- Deterministic model of
`tf.argsort(neg_minus_log_class0, direction="DESCENDING")` followed by the
index gathers: the negative anchors sorted by score descending, original
order preserved among equal scores. -/
def sortNegDesc (l : List Anchor) : List Anchor :=
  l.foldl (fun acc a => insertNegDesc a acc) []

/-- The negatives selected for the loss:
`neg_minus_log_class0_sort[:num_neg_needed]` with
`num_neg_needed = num_pos * neg_pos_ratio` (taking fewer when not enough
negatives exist). -/
def selectedNeg (r : ℕ) (l : List Anchor) : List Anchor :=
  (sortNegDesc (negAnchors l)).take (numPos l * r)

/-- Cross entropy of one anchor against the one-hot encoding of its class
target (`tf.one_hot` of the concatenated labels). -/
def anchorCE (C : ℕ) (a : Anchor) : ℝ := softmaxCE (oneHot C a.gtCls) a.predCls

/-- `_loss_class`: cross entropy summed over the positive anchors
concatenated with the selected hard negatives, divided by `num_pos`. -/
def lossConf (C r : ℕ) (l : List Anchor) : ℝ :=
  (((posAnchors l).map (anchorCE C)) ++ ((selectedNeg r l).map (anchorCE C))).sum
    / (numPos l : ℝ)

/-- The score the specification prescribes for hard-negative mining:
`−log(background_probability)` where `background_probability` is the softmax
probability mass on class 0.  Kept separate from `negScore` (the score the
source actually computes) so the two can be compared. -/
def specNegScore (a : Anchor) : ℝ :=
  -Real.log (Real.exp (a.predCls.headD 0) / (a.predCls.map Real.exp).sum)

/-! ## Mask loss (`_loss_mask`) -/

/-- Dot product of two coefficient vectors. -/
def dot (u v : List ℝ) : ℝ := (List.zipWith (· * ·) u v).sum

/-- `tf.linalg.matmul(proto, pos_mask_coef, transpose_b=True)` followed by
the transpose to anchor-major order, restricted to one anchor: the
`[Hm, Wm]` logit map obtained by combining the prototype channels with the
anchor's coefficient vector. -/
def predMaskGrid (proto : List (List (List ℝ))) (coef : List ℝ) : Grid :=
  proto.map (fun row => row.map (fun pix => dot pix coef))

/-- Modelled from the spec: `utils.map_to_center_form` (module `utils` is not
among the sources).  Spec contract: `toCenterForm(box_corner) → (cx, cy, w, h)`
for a corner-form box `[x1, y1, x2, y2]`. -/
def mapToCenterForm (b : List ℝ) : List ℝ :=
  [(b.getD 0 0 + b.getD 2 0) / 2, (b.getD 1 0 + b.getD 3 0) / 2,
   b.getD 2 0 - b.getD 0 0, b.getD 3 0 - b.getD 1 0]

/-- `area = bbox_center[:, -1] * bbox_center[:, -2]` (height × width of the
center-form box). -/
def boxArea (b : List ℝ) : ℝ :=
  (mapToCenterForm b).getD 3 0 * (mapToCenterForm b).getD 2 0

/-- Membership of pixel `(i, j)` of an `H × W` grid in a normalized
corner-form box. -/
def inBox (b : List ℝ) (H W i j : ℕ) : Prop :=
  ⌊b.getD 0 0 * W⌋ ≤ (j : ℤ) ∧ (j : ℤ) < ⌈b.getD 2 0 * W⌉ ∧
  ⌊b.getD 1 0 * H⌋ ≤ (i : ℤ) ∧ (i : ℤ) < ⌈b.getD 3 0 * H⌉

instance (b : List ℝ) (H W i j : ℕ) : Decidable (inBox b H W i j) := by
  unfold inBox; infer_instance

/-- Modelled from the spec: `utils.crop` (module `utils` is not among the
sources).  Spec contract: `cropToBox(loss_map, box, image_dims) → loss_map
with zeros outside box`; the reference's rounding at fractional pixel
coordinates is unspecified, here fixed as floor/ceil of the scaled corners. -/
def cropGrid (g : Grid) (b : List ℝ) : Grid :=
  (List.range g.length).map fun i =>
    (List.range (g.headD []).length).map fun j =>
      if inBox b g.length (g.headD []).length i j then (g.getD i []).getD j 0 else 0

/-- `tf.nn.sigmoid_cross_entropy_with_logits(labels := z, logits := x)`:
the exact real value of TensorFlow's stable formula,
`log(1 + exp x) − x·z`. -/
def scel (z x : ℝ) : ℝ := Real.log (1 + Real.exp x) - x * z

/-- Elementwise sigmoid cross entropy of a ground-truth grid against a
logit grid. -/
def bceGrid (gt pred : Grid) : Grid :=
  List.zipWith (fun gr pr => List.zipWith scel gr pr) gt pred

/-- Sum of all entries of a grid (`tf.reduce_sum` over both axes). -/
def gridSum (g : Grid) : ℝ := (g.map List.sum).sum

/-- The mask-loss contribution of one positive anchor: sigmoid cross entropy
of the matched ground-truth mask against the anchor's combined prototype
logits, cropped to the matched normalized box, spatially summed and divided
by the box area. -/
def anchorMaskLoss (img : Image) (a : Anchor) : ℝ :=
  gridSum (cropGrid
      (bceGrid (img.masks.getD a.maxId []) (predMaskGrid img.proto a.predCoef))
      (img.bboxNorm.getD a.maxId [])) /
    boxArea (img.bboxNorm.getD a.maxId [])

/-- One iteration of the per-image loop of `_loss_mask`: the summed
contributions of the image's positive anchors.  (The source's
`if tf.size(pos_indices) == 1` branch only restores a squeezed-away axis
and has no effect on the values.) -/
def imageMaskSum (img : Image) : ℝ :=
  ((posAnchors img.anchors).map (anchorMaskLoss img)).sum

/-- `total_pos`: the accumulated `tf.size(pos_indices)` over the batch.
This is the final division denominator of `_loss_mask`. -/
def maskTotalPos (batch : List Image) : ℕ :=
  (batch.map (fun img => numPos img.anchors)).sum

/-- `_loss_mask`.  The `max_masks_for_train` argument is received but never
used by the source (its `TODO: Limit number of positive ...` is not
implemented), which this definition mirrors. -/
def lossMask (batch : List Image) (max_masks_for_train : ℕ) : ℝ :=
  ((batch.map imageMaskSum).sum) / (maskTotalPos batch : ℝ)

/-! ## Semantic segmentation loss (`_loss_semantic_segmentation`) -/

/-- `tf.cast(x, tf.int64)` on a real value: truncation toward zero. -/
def castInt (x : ℝ) : ℤ := if 0 ≤ x then ⌊x⌋ else ⌈x⌉

/-- The binarization `tf.cast(tf.cast(masks + 0.5, tf.int64), tf.float32)`
applied to one resized mask value. -/
def binarize (x : ℝ) : ℝ := (castInt (x + 0.5) : ℤ)

/-- Binarization of a whole resized mask. -/
def binGrid (g : Grid) : Grid := g.map (fun row => row.map binarize)

/-- `tf.zeros_like(seg)` in channel-major form. -/
def zeroLike (s : List Grid) : List Grid :=
  s.map (fun g => g.map (fun row => row.map (fun _ => (0 : ℝ))))

/-- `seg_shape = tf.shape(pred_seg)[1]`: the row count (`Hs`) of the
segmentation logits, read off the first image of the batch (a tensor's
shape is shared by every image of the batch). -/
def segShapeOf : List Image → ℕ
  | [] => 0
  | img :: _ => (img.seg.headD []).length

/-- The per-image segmentation ground truth: zeros of the shape of `seg`,
channel-major, then `tf.tensor_scatter_nd_update` writing, for each of the
first `num_obj` objects in order, the resized-and-binarized mask over the
channel of the object's class (updates applied in order; on duplicate class
indices the last write wins). -/
def segTarget (resize : Grid → ℕ → Grid) (n : ℕ) (img : Image) : List Grid :=
  (List.zip (img.classes.take img.numObj) (img.masks.take img.numObj)).foldl
    (fun acc p => acc.set p.1 (binGrid (resize p.2 n)))
    (zeroLike img.seg)

/-- Sum over channels and pixels of the sigmoid cross entropy of a
channel-major target against channel-major logits. -/
def sumBCEcm (gt seg : List Grid) : ℝ :=
  (List.zipWith (fun gc sc => gridSum (bceGrid gc sc)) gt seg).sum

/-- One iteration of the per-image loop of `_loss_semantic_segmentation`. -/
def imageSegBCE (resize : Grid → ℕ → Grid) (n : ℕ) (img : Image) : ℝ :=
  sumBCEcm (segTarget resize n img) img.seg

/-- `_loss_semantic_segmentation`: the per-image sums accumulated over the
batch, then divided by `seg_shape²` and by the batch size. -/
def lossSeg (resize : Grid → ℕ → Grid) (batch : List Image) : ℝ :=
  ((batch.map (imageSegBCE resize (segShapeOf batch))).sum)
    / (segShapeOf batch : ℝ) ^ 2 / (batch.length : ℝ)

/-! ## Aggregation (`__call__`) -/

/-- `YOLACTLoss.__call__`: the four component losses and the weighted total,
returned as the five-tuple `(loc, conf, mask, seg, total)`. -/
def callLoss (resize : Grid → ℕ → Grid) (cfg : Config) (batch : List Image) :
    ℝ × ℝ × ℝ × ℝ × ℝ :=
  let loc := lossLoc (joinAnchors batch)
  let conf := lossConf cfg.num_classes cfg.neg_pos_ratio (joinAnchors batch)
  let mask := lossMask batch cfg.max_masks_for_train
  let seg := lossSeg resize batch
  (loc, conf, mask, seg,
    cfg.box_prediction_loss_weight * loc + cfg.classification_loss_weight * conf +
      cfg.mask_loss_weight * mask + cfg.segmentation_loss_weight * seg)

/-! ## General helper lemmas -/

lemma mem_zipWith {α β γ : Type} {f : α → β → γ} {c : γ} :
    ∀ {l1 : List α} {l2 : List β}, c ∈ List.zipWith f l1 l2 →
      ∃ a, a ∈ l1 ∧ ∃ b, b ∈ l2 ∧ c = f a b := by
  intro l1
  induction l1 with
  | nil => intro l2 h; simp at h
  | cons a t ih =>
    intro l2 h
    cases l2 with
    | nil => simp at h
    | cons b t2 =>
      simp only [List.zipWith_cons_cons, List.mem_cons] at h
      rcases h with h | h
      · exact ⟨a, by simp, b, by simp, h⟩
      · rcases ih h with ⟨a', ha', b', hb', hc⟩
        exact ⟨a', by simp [ha'], b', by simp [hb'], hc⟩

lemma huber_nonneg (e : ℝ) : 0 ≤ huber e := by
  unfold huber
  split
  · positivity
  · rename_i h
    have : 1 < |e| := lt_of_not_ge h
    linarith

lemma kerasHuber_nonneg (gt pred : List ℝ) : 0 ≤ kerasHuber gt pred := by
  unfold kerasHuber
  apply div_nonneg _ (by positivity)
  apply List.sum_nonneg
  intro x hx
  rcases mem_zipWith hx with ⟨a, _, b, _, rfl⟩
  exact huber_nonneg _

lemma le_logsumexp {x : ℝ} {l : List ℝ} (hx : x ∈ l) : x ≤ logsumexp l := by
  have hsum : Real.exp x ≤ (l.map Real.exp).sum := by
    apply List.single_le_sum _ _ (List.mem_map_of_mem Real.exp hx)
    intro y hy
    rcases List.mem_map.mp hy with ⟨z, _, rfl⟩
    exact (Real.exp_pos z).le
  calc x = Real.log (Real.exp x) := (Real.log_exp x).symm
    _ ≤ logsumexp l := Real.log_le_log (Real.exp_pos x) hsum

lemma softmaxCE_nonneg {labels logits : List ℝ}
    (hl : ∀ y ∈ labels, 0 ≤ y) : 0 ≤ softmaxCE labels logits := by
  unfold softmaxCE
  apply List.sum_nonneg
  intro z hz
  rcases mem_zipWith hz with ⟨y, hy, x, hx, rfl⟩
  exact mul_nonneg (hl y hy) (by linarith [le_logsumexp hx])

lemma anchorCE_nonneg (C : ℕ) (a : Anchor) : 0 ≤ anchorCE C a := by
  apply softmaxCE_nonneg
  intro y hy
  rcases List.mem_map.mp hy with ⟨i, _, rfl⟩
  split <;> norm_num

lemma scel_nonneg {z : ℝ} (x : ℝ) (hz0 : 0 ≤ z) (hz1 : z ≤ 1) : 0 ≤ scel z x := by
  unfold scel
  rcases le_or_lt 0 x with hx | hx
  · have h1 : x * z ≤ x := mul_le_of_le_one_right hx hz1
    have h2 : x ≤ Real.log (1 + Real.exp x) := by
      calc x = Real.log (Real.exp x) := (Real.log_exp x).symm
        _ ≤ _ := Real.log_le_log (Real.exp_pos x) (by linarith)
    linarith
  · have h1 : x * z ≤ 0 := mul_nonpos_of_nonpos_of_nonneg hx.le hz0
    have h2 : 0 ≤ Real.log (1 + Real.exp x) :=
      Real.log_nonneg (by linarith [Real.exp_pos x])
    linarith

lemma gridSum_nonneg {g : Grid} (h : ∀ row ∈ g, ∀ v ∈ row, 0 ≤ v) : 0 ≤ gridSum g := by
  unfold gridSum
  apply List.sum_nonneg
  intro s hs
  rcases List.mem_map.mp hs with ⟨row, hrow, rfl⟩
  exact List.sum_nonneg (h row hrow)

lemma getD_getD_nonneg {g : Grid} (i j : ℕ)
    (h : ∀ row ∈ g, ∀ v ∈ row, 0 ≤ v) : 0 ≤ (g.getD i []).getD j 0 := by
  rw [List.getD_eq_getElem?_getD g i []]
  cases hi : g[i]? with
  | none => simp
  | some row =>
    have hrow := List.getElem?_mem hi
    simp only [Option.getD_some]
    rw [List.getD_eq_getElem?_getD row j 0]
    cases hj : row[j]? with
    | none => simp
    | some v => simpa using h row hrow v (List.getElem?_mem hj)

/-! ## Claim theorems -/

/-- C1: For every batch, the aggregator returns the five-tuple
`(loc, cls, mask, seg, total)` with
`total = box_weight·loc + classification_weight·cls + mask_weight·mask +
segmentation_weight·seg`, the weights coming from the configuration, whose
defaults are 1.5, 1, 6.125 and 1. -/
theorem C1_total_weighted_sum (resize : Grid → ℕ → Grid) (cfg : Config)
    (batch : List Image) (C : ℕ) :
    callLoss resize cfg batch =
      (lossLoc (joinAnchors batch),
       lossConf cfg.num_classes cfg.neg_pos_ratio (joinAnchors batch),
       lossMask batch cfg.max_masks_for_train,
       lossSeg resize batch,
       cfg.box_prediction_loss_weight * (callLoss resize cfg batch).1 +
         cfg.classification_loss_weight * (callLoss resize cfg batch).2.1 +
         cfg.mask_loss_weight * (callLoss resize cfg batch).2.2.1 +
         cfg.segmentation_loss_weight * (callLoss resize cfg batch).2.2.2.1) ∧
    (defaultConfig C).box_prediction_loss_weight = 1.5 ∧
    (defaultConfig C).classification_loss_weight = 1 ∧
    (defaultConfig C).mask_loss_weight = 6.125 ∧
    (defaultConfig C).segmentation_loss_weight = 1 :=
  ⟨rfl, rfl, rfl, rfl, rfl⟩

/-- C5: `max_masks_for_train` is received but never applied, so two runs on
the same inputs whose configurations differ only in that cap return the
identical five-tuple (in particular the identical mask loss). -/
theorem C5_cap_unused (resize : Grid → ℕ → Grid) (cfg : Config)
    (batch : List Image) (v1 v2 : ℕ) :
    callLoss resize { cfg with max_masks_for_train := v1 } batch =
      callLoss resize { cfg with max_masks_for_train := v2 } batch :=
  rfl

/-- A batch with two anchors, both negative (`positiveness = 0`): no anchor
is positive anywhere. -/
def c2anchor : Anchor :=
  { predCls := [1, 2], predOff := [0, 0, 0, 0], predCoef := [1],
    gtCls := 0, gtOff := [0, 0, 0, 0], pos := 0, maxId := 0 }

def c2img : Image :=
  { anchors := [c2anchor, c2anchor], proto := [[[1]]], seg := [[[0]]],
    masks := [[[1]]], classes := [0], numObj := 1, bboxNorm := [[0, 0, 1, 1]] }

def c2batch : List Image := [c2img]

/-- C2 (code bug): on a batch with zero positive anchors, `num_pos` — the
division denominator of `_loss_location` and `_loss_class` — and
`total_pos` — the division denominator of `_loss_mask` — are both 0, so all
three losses evaluate `0 / 0`, which is NaN in IEEE float arithmetic, not
the 0 the specification requires (the source has no guard). -/
theorem C2_zero_pos_divides_by_zero :
    numPos (joinAnchors c2batch) = 0 ∧ maskTotalPos c2batch = 0 := by
  constructor <;> rfl

/-- A single positive anchor whose predicted offset differs from the target
by 0.5 in every coordinate. -/
def c4anchor : Anchor :=
  { predCls := [1], predOff := [1/2, 1/2, 1/2, 1/2], predCoef := [1],
    gtCls := 0, gtOff := [0, 0, 0, 0], pos := 1, maxId := 0 }

/-- C4 counterexample: the claim predicts localization loss
`4 · 0.125 = 0.5` for this anchor, but
`tf.keras.losses.Huber(reduction=NONE)` reduces the coordinate axis by its
MEAN, so the code yields `0.125`, and `0.125 ≠ 0.5`. -/
theorem C4_counterexample :
    lossLoc [c4anchor] = 1/8 ∧ (1/8 : ℝ) ≠ 1/2 := by
  constructor
  · have hb : huber (1/2 : ℝ) = 1/8 := by
      unfold huber
      rw [if_pos (by rw [abs_of_nonneg (by norm_num)]; norm_num)]
      norm_num
    simp only [lossLoc, posAnchors, numPos, kerasHuber, c4anchor, List.filter,
      List.zipWith, List.sum_cons, List.sum_nil, List.map, List.length]
    norm_num [hb]
  · norm_num

/-- C4 amended: for every batch with at least one positive anchor (all
offsets 4-dimensional), the localization loss is the per-anchor MEAN of the
elementwise Huber values over the 4 coordinates — the coordinate sum divided
by 4 — summed over the positive anchors and divided by the positive count. -/
theorem C4_amended (l : List Anchor) (hpos : 0 < numPos l)
    (hlen : ∀ a ∈ l, a.gtOff.length = 4 ∧ a.predOff.length = 4) :
    lossLoc l =
      ((posAnchors l).map
        (fun a => (List.zipWith (fun g p => huber (p - g)) a.gtOff a.predOff).sum / 4)).sum
        / (numPos l : ℝ) := by
  rw [lossLoc]
  congr 1
  refine congrArg List.sum (List.map_congr_left ?_)
  intro a ha
  have hal := hlen a (List.mem_of_mem_filter ha)
  rw [kerasHuber]
  rw [List.length_zipWith, hal.1, hal.2]
  norm_num

/-- Witness for C4 amended at the concrete one-anchor batch. -/
theorem C4_amended_witness :
    lossLoc [c4anchor] =
      ((posAnchors [c4anchor]).map
        (fun a => (List.zipWith (fun g p => huber (p - g)) a.gtOff a.predOff).sum / 4)).sum
        / (numPos [c4anchor] : ℝ) :=
  C4_amended [c4anchor] (by decide)
    (by intro a ha; simp only [List.mem_singleton] at ha; subst ha; exact ⟨rfl, rfl⟩)

/-- One positive anchor (class 1) for the hard-negative-selection batch. -/
def c3pos : Anchor :=
  { predCls := [0, 0], predOff := [], predCoef := [],
    gtCls := 1, gtOff := [], pos := 1, maxId := 0 }

/-- A negative anchor with logits `[1, 0]`: raw class-0 logit 1 (code score
`−log 1 = 0`), softmax background probability `e/(e+1)` (spec score
`≈ 0.31`). -/
def c3negA : Anchor :=
  { predCls := [1, 0], predOff := [], predCoef := [],
    gtCls := 0, gtOff := [], pos := 0, maxId := 0 }

/-- A negative anchor with logits `[2, 5]`: raw class-0 logit 2 (code score
`−log 2 < 0`), softmax background probability `e²/(e²+e⁵)` (spec score
`≈ 3.05`, much harder than `c3negA`). -/
def c3negB : Anchor :=
  { predCls := [2, 5], predOff := [], predCoef := [],
    gtCls := 0, gtOff := [], pos := 0, maxId := 0 }

def c3list : List Anchor := [c3pos, c3negA, c3negB]

/-- C3 (code bug): with one positive and `neg_pos_ratio = 1` the code must
select the single negative with the largest `−log(background_probability)`.
The source's comment says "apply softmax on the pred_cls" but the code sets
`neg_softmax = neg_pred_cls`, never applying softmax, so it scores by
`−log(raw class-0 logit)` and here selects `c3negA` — even though
`c3negB`'s spec score `−log(softmax₀)` is strictly larger, so the
specified selection is `{c3negB}`. -/
theorem C3_selection_diverges :
    selectedNeg 1 c3list = [c3negA] ∧
    c3negA ≠ c3negB ∧
    specNegScore c3negA < specNegScore c3negB := by
  refine ⟨?_, ?_, ?_⟩
  · have hsort : sortNegDesc (negAnchors c3list) = [c3negA, c3negB] := by
      have hneg : negAnchors c3list = [c3negA, c3negB] := rfl
      rw [hneg]
      show insertNegDesc c3negB (insertNegDesc c3negA []) = [c3negA, c3negB]
      rw [show insertNegDesc c3negA [] = [c3negA] from rfl]
      have hcond : ¬(negScore c3negA < negScore c3negB) := by
        intro hlt
        have h1 : negScore c3negA = 0 := by
          simp [negScore, c3negA, Real.log_one]
        have h2 : negScore c3negB = -Real.log 2 := by
          simp [negScore, c3negB]
        rw [h1, h2] at hlt
        have : 0 < Real.log 2 := Real.log_pos (by norm_num)
        linarith
      unfold insertNegDesc
      rw [if_neg hcond]
      rfl
    rw [selectedNeg, hsort]
    rfl
  · intro h
    have := congrArg Anchor.predCls h
    simp only [c3negA, c3negB, List.cons.injEq] at this
    norm_num at this
  · have hA : specNegScore c3negA =
        -Real.log (Real.exp 1 / (Real.exp 1 + 1)) := by
      simp [specNegScore, c3negA, Real.exp_zero]
    have hB : specNegScore c3negB =
        -Real.log (Real.exp 2 / (Real.exp 2 + Real.exp 5)) := by
      simp [specNegScore, c3negB]
    rw [hA, hB, neg_lt_neg_iff]
    apply Real.log_lt_log (by positivity)
    rw [div_lt_div_iff₀ (by positivity) (by positivity)]
    have h15 : Real.exp 1 * Real.exp 5 = Real.exp 6 := by
      rw [← Real.exp_add]; norm_num
    have h26 : Real.exp 2 < Real.exp 6 := Real.exp_lt_exp.mpr (by norm_num)
    nlinarith [Real.exp_pos 1, Real.exp_pos 2, Real.exp_pos 5]

/-- Two images that differ only by a permutation of their anchor list (each
anchor record carrying all of its per-anchor predictions and targets, so
the reordering is applied consistently). -/
def ImagePerm (i1 i2 : Image) : Prop :=
  i1.anchors.Perm i2.anchors ∧ i1.proto = i2.proto ∧ i1.seg = i2.seg ∧
  i1.masks = i2.masks ∧ i1.classes = i2.classes ∧ i1.numObj = i2.numObj ∧
  i1.bboxNorm = i2.bboxNorm

lemma posAnchors_perm {l1 l2 : List Anchor} (h : l1.Perm l2) :
    (posAnchors l1).Perm (posAnchors l2) := h.filter _

lemma numPos_perm {l1 l2 : List Anchor} (h : l1.Perm l2) :
    numPos l1 = numPos l2 := (posAnchors_perm h).length_eq

lemma lossLoc_perm {l1 l2 : List Anchor} (h : l1.Perm l2) :
    lossLoc l1 = lossLoc l2 := by
  unfold lossLoc
  rw [((posAnchors_perm h).map _).sum_eq, numPos_perm h]

lemma joinAnchors_perm {b1 b2 : List Image} (h : List.Forall₂ ImagePerm b1 b2) :
    (joinAnchors b1).Perm (joinAnchors b2) := by
  induction h with
  | nil => rfl
  | cons hi _ ih =>
    simp only [joinAnchors, List.map_cons, List.flatten_cons]
    exact hi.1.append ih

lemma imageMaskSum_eq {i1 i2 : Image} (h : ImagePerm i1 i2) :
    imageMaskSum i1 = imageMaskSum i2 := by
  obtain ⟨hp, hproto, _, hmasks, _, _, hbbox⟩ := h
  have hfun : anchorMaskLoss i1 = anchorMaskLoss i2 := by
    funext a
    unfold anchorMaskLoss
    rw [hproto, hmasks, hbbox]
  unfold imageMaskSum
  rw [hfun, ((posAnchors_perm hp).map _).sum_eq]

lemma maskTotalPos_eq {b1 b2 : List Image} (h : List.Forall₂ ImagePerm b1 b2) :
    maskTotalPos b1 = maskTotalPos b2 := by
  induction h with
  | nil => rfl
  | cons hi _ ih =>
    simp only [maskTotalPos, List.map_cons, List.sum_cons] at *
    rw [numPos_perm hi.1, ih]

lemma lossMask_eq {b1 b2 : List Image} (m : ℕ) (h : List.Forall₂ ImagePerm b1 b2) :
    lossMask b1 m = lossMask b2 m := by
  unfold lossMask
  rw [maskTotalPos_eq h]
  congr 1
  induction h with
  | nil => rfl
  | cons hi _ ih =>
    simp only [List.map_cons, List.sum_cons]
    rw [imageMaskSum_eq hi, ih]

lemma imageSegBCE_eq {i1 i2 : Image} (resize : Grid → ℕ → Grid) (n : ℕ)
    (h : ImagePerm i1 i2) : imageSegBCE resize n i1 = imageSegBCE resize n i2 := by
  obtain ⟨_, _, hseg, hmasks, hcls, hnum, _⟩ := h
  unfold imageSegBCE segTarget
  rw [hseg, hmasks, hcls, hnum]

lemma segShapeOf_eq {b1 b2 : List Image} (h : List.Forall₂ ImagePerm b1 b2) :
    segShapeOf b1 = segShapeOf b2 := by
  cases h with
  | nil => rfl
  | cons hi _ => simp only [segShapeOf]; rw [hi.2.2.1]

lemma segBCE_sum_eq {b1 b2 : List Image} (resize : Grid → ℕ → Grid) (n : ℕ)
    (h : List.Forall₂ ImagePerm b1 b2) :
    (b1.map (imageSegBCE resize n)).sum = (b2.map (imageSegBCE resize n)).sum := by
  induction h with
  | nil => rfl
  | cons hi _ ih =>
    simp only [List.map_cons, List.sum_cons]
    rw [imageSegBCE_eq _ _ hi, ih]

lemma lossSeg_eq {b1 b2 : List Image} (resize : Grid → ℕ → Grid)
    (h : List.Forall₂ ImagePerm b1 b2) :
    lossSeg resize b1 = lossSeg resize b2 := by
  unfold lossSeg
  rw [segShapeOf_eq h, h.length_eq, segBCE_sum_eq resize (segShapeOf b2) h]

/-- C8 amended: reordering the anchors within each image — the reordering
applied consistently to all per-anchor predictions and targets — leaves the
localization, mask and segmentation losses unchanged.  (The classification
loss is NOT invariant in general: `C8_counterexample` shows two negatives
tying on the hard-negative score, where the anchor order decides which one
is selected.) -/
theorem C8_amended (resize : Grid → ℕ → Grid) (m : ℕ) (b1 b2 : List Image)
    (h : List.Forall₂ ImagePerm b1 b2) :
    lossLoc (joinAnchors b1) = lossLoc (joinAnchors b2) ∧
    lossMask b1 m = lossMask b2 m ∧
    lossSeg resize b1 = lossSeg resize b2 :=
  ⟨lossLoc_perm (joinAnchors_perm h), lossMask_eq m h, lossSeg_eq resize h⟩

/-- One positive anchor for the permutation counterexample. -/
def c8pos : Anchor :=
  { predCls := [0, 0], predOff := [0], predCoef := [0],
    gtCls := 1, gtOff := [0], pos := 1, maxId := 0 }

/-- Negative anchor with logits `[1, 0]`; hard-negative score `−log 1 = 0`. -/
def c8negA : Anchor :=
  { predCls := [1, 0], predOff := [0], predCoef := [0],
    gtCls := 0, gtOff := [0], pos := 0, maxId := 0 }

/-- Negative anchor with logits `[1, 5]`; the SAME hard-negative score
`−log 1 = 0` as `c8negA`, but different cross entropy. -/
def c8negB : Anchor :=
  { predCls := [1, 5], predOff := [0], predCoef := [0],
    gtCls := 0, gtOff := [0], pos := 0, maxId := 0 }

def c8list1 : List Anchor := [c8pos, c8negA, c8negB]

def c8list2 : List Anchor := [c8pos, c8negB, c8negA]

lemma c8_selected1 : selectedNeg 1 c8list1 = [c8negA] := by
  have hneg : negAnchors c8list1 = [c8negA, c8negB] := rfl
  have hs1 : negScore c8negA = 0 := by simp [negScore, c8negA, Real.log_one]
  have hs2 : negScore c8negB = 0 := by simp [negScore, c8negB, Real.log_one]
  have hsort : sortNegDesc (negAnchors c8list1) = [c8negA, c8negB] := by
    rw [hneg]
    show insertNegDesc c8negB (insertNegDesc c8negA []) = [c8negA, c8negB]
    rw [show insertNegDesc c8negA [] = [c8negA] from rfl]
    unfold insertNegDesc
    rw [if_neg (by rw [hs1, hs2]; exact lt_irrefl 0)]
    rfl
  rw [selectedNeg, hsort]
  rfl

lemma c8_selected2 : selectedNeg 1 c8list2 = [c8negB] := by
  have hneg : negAnchors c8list2 = [c8negB, c8negA] := rfl
  have hs1 : negScore c8negA = 0 := by simp [negScore, c8negA, Real.log_one]
  have hs2 : negScore c8negB = 0 := by simp [negScore, c8negB, Real.log_one]
  have hsort : sortNegDesc (negAnchors c8list2) = [c8negB, c8negA] := by
    rw [hneg]
    show insertNegDesc c8negA (insertNegDesc c8negB []) = [c8negB, c8negA]
    rw [show insertNegDesc c8negB [] = [c8negB] from rfl]
    unfold insertNegDesc
    rw [if_neg (by rw [hs1, hs2]; exact lt_irrefl 0)]
    rfl
  rw [selectedNeg, hsort]
  rfl

/-- C8 counterexample: `c8list2` is a permutation of `c8list1` (the swap of
the two negative anchors, all per-anchor data moved together), yet the
classification loss changes: the two negatives tie on the hard-negative
score, so the anchor order decides which one is selected, and their cross
entropies differ (`log(e+1) ≠ log(e+e⁵)`). -/
theorem C8_counterexample :
    c8list1.Perm c8list2 ∧ lossConf 2 1 c8list1 ≠ lossConf 2 1 c8list2 := by
  constructor
  · exact List.Perm.cons c8pos (List.Perm.swap c8negB c8negA [])
  · have hpos1 : posAnchors c8list1 = [c8pos] := rfl
    have hpos2 : posAnchors c8list2 = [c8pos] := rfl
    have hnum1 : numPos c8list1 = 1 := rfl
    have hnum2 : numPos c8list2 = 1 := rfl
    rw [lossConf, lossConf, c8_selected1, c8_selected2, hpos1, hpos2, hnum1, hnum2]
    simp only [List.map_cons, List.map_nil, List.sum_append, List.sum_cons,
      List.sum_nil, Nat.cast_one, div_one, ne_eq, add_right_inj, add_zero]
    have hA : anchorCE 2 c8negA = logsumexp [1, 0] - 1 := by
      simp [anchorCE, softmaxCE, oneHot, c8negA, List.range_succ]
    have hB : anchorCE 2 c8negB = logsumexp [1, 5] - 1 := by
      simp [anchorCE, softmaxCE, oneHot, c8negB, List.range_succ]
    rw [hA, hB]
    intro hEq
    have hlse : logsumexp [1, 0] = logsumexp [1, 5] := by linarith
    have h05 : Real.exp 0 < Real.exp 5 := Real.exp_lt_exp.mpr (by norm_num)
    have hlt : logsumexp [1, 0] < logsumexp [1, 5] := by
      unfold logsumexp
      apply Real.log_lt_log
      · simp only [List.map_cons, List.map_nil, List.sum_cons, List.sum_nil]
        positivity
      · simp only [List.map_cons, List.map_nil, List.sum_cons, List.sum_nil]
        linarith
    linarith

/-- A tiny image for the C8 witness: two anchors to be swapped. -/
def c8img1 : Image :=
  { anchors := [c8negA, c8negB], proto := [[[1]]], seg := [[[0]]],
    masks := [[[1]]], classes := [0], numObj := 1, bboxNorm := [[0, 0, 1, 1]] }

def c8img2 : Image :=
  { anchors := [c8negB, c8negA], proto := [[[1]]], seg := [[[0]]],
    masks := [[[1]]], classes := [0], numObj := 1, bboxNorm := [[0, 0, 1, 1]] }

/-- Witness for C8 amended: the invariance instantiated at a concrete
one-image batch whose two anchors are swapped. -/
theorem C8_amended_witness :
    lossLoc (joinAnchors [c8img1]) = lossLoc (joinAnchors [c8img2]) ∧
    lossMask [c8img1] 100 = lossMask [c8img2] 100 ∧
    lossSeg (fun g _ => g) [c8img1] = lossSeg (fun g _ => g) [c8img2] :=
  C8_amended (fun g _ => g) 100 [c8img1] [c8img2]
    (List.Forall₂.cons
      ⟨List.Perm.swap c8negB c8negA [], rfl, rfl, rfl, rfl, rfl, rfl⟩
      List.Forall₂.nil)

/-- C6: the segmentation loss is the per-image sigmoid-cross-entropy sums
accumulated over the batch, divided by the number of segmentation pixels
`Hs·Ws` and by the batch size.  The well-formedness hypothesis pins every
channel grid to the `seg_shape × seg_shape` resolution the source assumes
(its resize target `[seg_shape, seg_shape]` and divisor `seg_shape²` are
built from the single dimension `tf.shape(pred_seg)[1]`, so only square
resolutions run), making the divisor `seg_shape · seg_shape` exactly
`Hs · Ws`. -/
theorem C6_seg_normalization (resize : Grid → ℕ → Grid) (batch : List Image)
    (hne : batch ≠ [])
    (hsq : ∀ img ∈ batch, ∀ ch ∈ img.seg,
      ch.length = segShapeOf batch ∧ ∀ row ∈ ch, row.length = segShapeOf batch) :
    lossSeg resize batch =
      (batch.map (imageSegBCE resize (segShapeOf batch))).sum
        / ((segShapeOf batch : ℝ) * (segShapeOf batch : ℝ) * (batch.length : ℝ)) := by
  rw [lossSeg, pow_two, div_div]

/-- A one-image batch with a single-channel `1 × 1` segmentation map. -/
def c6img : Image :=
  { anchors := [], proto := [], seg := [[[0]]], masks := [], classes := [],
    numObj := 0, bboxNorm := [] }

/-- Witness for C6 at a concrete one-image batch. -/
theorem C6_seg_normalization_witness :
    lossSeg (fun g _ => g) [c6img] =
      ([c6img].map (imageSegBCE (fun g _ => g) (segShapeOf [c6img]))).sum
        / ((segShapeOf [c6img] : ℝ) * (segShapeOf [c6img] : ℝ) * (([c6img] : List Image).length : ℝ)) :=
  C6_seg_normalization (fun g _ => g) [c6img] (by simp)
    (by
      intro img hi ch hc
      simp only [List.mem_singleton] at hi
      subst hi
      simp only [c6img, List.mem_singleton] at hc
      subst hc
      refine ⟨rfl, ?_⟩
      intro row hr
      simp only [List.mem_singleton] at hr
      subst hr
      rfl)

lemma length_foldl_set (g : ℕ × Grid → Grid) (l : List (ℕ × Grid)) (base : List Grid) :
    (l.foldl (fun acc p => acc.set p.1 (g p)) base).length = base.length := by
  induction l generalizing base with
  | nil => rfl
  | cons p t ih => simp only [List.foldl_cons]; rw [ih, List.length_set]

lemma foldl_set_getElem? (g : ℕ × Grid → Grid) (l : List (ℕ × Grid))
    (base : List Grid) (c : ℕ) (hc : c < base.length) :
    (l.foldl (fun acc p => acc.set p.1 (g p)) base)[c]? =
      match l.reverse.find? (fun p => p.1 == c) with
      | some p => some (g p)
      | none => base[c]? := by
  induction l using List.reverseRecOn with
  | nil => simp
  | append_singleton l p ih =>
    rw [List.foldl_append]
    simp only [List.foldl_cons, List.foldl_nil, List.reverse_append,
      List.reverse_cons, List.reverse_nil, List.nil_append, List.singleton_append]
    by_cases hp : p.1 = c
    · have hfind : List.find? (fun q => q.1 == c) (p :: l.reverse) = some p := by
        simp [List.find?_cons, hp]
      rw [hfind, hp]
      rw [List.getElem?_set_self]
      rw [length_foldl_set]
      simp [hc]
    · have hfind : List.find? (fun q => q.1 == c) (p :: l.reverse) =
          List.find? (fun q => q.1 == c) l.reverse := by
        simp [List.find?_cons, hp]
      rw [hfind, List.getElem?_set_ne hp, ih]

/-- C7: the per-image segmentation target.  For every channel `c` of the
(zero-initialized) target, the resulting channel is: the resized binarized
mask of the LAST object of class `c` among the first `num_obj` objects if
one exists (each write replaces the channel, so a later same-class object
overwrites an earlier one — at overlapping pixels the later value stands;
the result is the last writer's mask, not the union), and the zero channel
otherwise.  Objects beyond `num_obj` are ignored by the `take`. -/
theorem C7_scatter_overwrite (resize : Grid → ℕ → Grid) (n : ℕ) (img : Image)
    (c : ℕ) (hc : c < img.seg.length) :
    (segTarget resize n img)[c]? =
      match (List.zip (img.classes.take img.numObj) (img.masks.take img.numObj)).reverse.find?
          (fun p => p.1 == c) with
      | some p => some (binGrid (resize p.2 n))
      | none => (zeroLike img.seg)[c]? := by
  have hlen : c < (zeroLike img.seg).length := by
    simpa [zeroLike] using hc
  unfold segTarget
  exact foldl_set_getElem? (fun p => binGrid (resize p.2 n)) _ _ c hlen

/-- Two same-class `1 × 1` objects: the first mask is 1, the second is 0. -/
def c7img : Image :=
  { anchors := [], proto := [], seg := [[[0]]], masks := [[[1]], [[0]]],
    classes := [0, 0], numObj := 2, bboxNorm := [] }

/-- Witness for C7 at the two-object image. -/
theorem C7_scatter_overwrite_witness :
    (segTarget (fun g _ => g) 1 c7img)[0]? =
      match (List.zip (c7img.classes.take c7img.numObj) (c7img.masks.take c7img.numObj)).reverse.find?
          (fun p => p.1 == 0) with
      | some p => some (binGrid ((fun (g : Grid) (_ : ℕ) => g) p.2 1))
      | none => (zeroLike c7img.seg)[0]? :=
  C7_scatter_overwrite (fun g _ => g) 1 c7img 0 (by simp [c7img])

/-- A one-image batch whose image has `num_obj = 0`. -/
def c10img : Image :=
  { anchors := [], proto := [], seg := [[[1]]], masks := [[[1]]],
    classes := [0], numObj := 0, bboxNorm := [] }

/-- C10: an image with `num_obj = 0` is not skipped: its target map stays
all zeros (the scatter writes nothing) and the image contributes the full
sigmoid cross entropy of its segmentation logits against that all-zero map
to the batch sum. -/
theorem C10_zero_objects (resize : Grid → ℕ → Grid) (img : Image)
    (rest : List Image) (h : img.numObj = 0) :
    segTarget resize (segShapeOf (img :: rest)) img = zeroLike img.seg ∧
    lossSeg resize (img :: rest) =
      (sumBCEcm (zeroLike img.seg) img.seg
        + (rest.map (imageSegBCE resize (segShapeOf (img :: rest)))).sum)
        / (segShapeOf (img :: rest) : ℝ) ^ 2 / (((img :: rest).length : ℕ) : ℝ) := by
  have h1 : segTarget resize (segShapeOf (img :: rest)) img = zeroLike img.seg := by
    rw [segTarget, h]
    simp
  refine ⟨h1, ?_⟩
  rw [lossSeg]
  simp only [List.map_cons, List.sum_cons, imageSegBCE]
  rw [h1]

/-- Witness for C10 at a concrete image with no objects. -/
theorem C10_zero_objects_witness :
    segTarget (fun g _ => g) (segShapeOf [c10img]) c10img = zeroLike c10img.seg ∧
    lossSeg (fun g _ => g) [c10img] =
      (sumBCEcm (zeroLike c10img.seg) c10img.seg
        + (([] : List Image).map (imageSegBCE (fun g _ => g) (segShapeOf [c10img]))).sum)
        / (segShapeOf [c10img] : ℝ) ^ 2 / ((([c10img] : List Image).length : ℕ) : ℝ) :=
  C10_zero_objects (fun g _ => g) c10img [] rfl

/-! ## Non-negativity (C9) -/

/-- All entries of a grid lie in `[0, 1]` (binary masks in particular). -/
def GridIn01 (g : Grid) : Prop := ∀ row ∈ g, ∀ v ∈ row, 0 ≤ v ∧ v ≤ 1

lemma lossLoc_nonneg (l : List Anchor) : 0 ≤ lossLoc l := by
  unfold lossLoc
  apply div_nonneg _ (by positivity)
  apply List.sum_nonneg
  intro x hx
  rcases List.mem_map.mp hx with ⟨a, _, rfl⟩
  exact kerasHuber_nonneg _ _

lemma lossConf_nonneg (C r : ℕ) (l : List Anchor) : 0 ≤ lossConf C r l := by
  unfold lossConf
  apply div_nonneg _ (by positivity)
  apply List.sum_nonneg
  intro x hx
  rcases List.mem_append.mp hx with h | h <;>
    · rcases List.mem_map.mp h with ⟨a, _, rfl⟩
      exact anchorCE_nonneg C a

lemma bceGrid_entry_nonneg {gt pred : Grid} (h : GridIn01 gt) :
    ∀ row ∈ bceGrid gt pred, ∀ v ∈ row, 0 ≤ v := by
  intro row hrow v hv
  rcases mem_zipWith hrow with ⟨gr, hgr, pr, _, rfl⟩
  rcases mem_zipWith hv with ⟨z, hz, x, _, rfl⟩
  exact scel_nonneg x (h gr hgr z hz).1 (h gr hgr z hz).2

lemma cropGrid_entry_nonneg {g : Grid} (b : List ℝ)
    (h : ∀ row ∈ g, ∀ v ∈ row, 0 ≤ v) :
    ∀ row ∈ cropGrid g b, ∀ v ∈ row, 0 ≤ v := by
  intro row hrow v hv
  rcases List.mem_map.mp hrow with ⟨i, _, rfl⟩
  rcases List.mem_map.mp hv with ⟨j, _, rfl⟩
  split
  · exact getD_getD_nonneg i j h
  · exact le_refl 0

lemma getD_mem_or {α : Type} (l : List α) (i : ℕ) (d : α) :
    l.getD i d ∈ l ∨ l.getD i d = d := by
  rw [List.getD_eq_getElem?_getD]
  cases hi : l[i]? with
  | none => simp
  | some a => simp only [Option.getD_some]; exact Or.inl (List.getElem?_mem hi)

lemma boxArea_nonneg {b : List ℝ}
    (h : b.getD 0 0 ≤ b.getD 2 0 ∧ b.getD 1 0 ≤ b.getD 3 0) : 0 ≤ boxArea b := by
  unfold boxArea mapToCenterForm
  simp only [List.getD_eq_getElem?_getD] at h
  simp only [List.getD]
  apply mul_nonneg <;> simp <;> linarith [h.1, h.2]

lemma anchorMaskLoss_nonneg (img : Image) (a : Anchor)
    (hmask : ∀ g ∈ img.masks, GridIn01 g)
    (hbox : ∀ b ∈ img.bboxNorm, b.getD 0 0 ≤ b.getD 2 0 ∧ b.getD 1 0 ≤ b.getD 3 0) :
    0 ≤ anchorMaskLoss img a := by
  unfold anchorMaskLoss
  apply div_nonneg
  · apply gridSum_nonneg
    apply cropGrid_entry_nonneg
    apply bceGrid_entry_nonneg
    rcases getD_mem_or img.masks a.maxId [] with hm | hm
    · exact hmask _ hm
    · rw [hm]; intro row hrow; simp at hrow
  · apply boxArea_nonneg
    rcases getD_mem_or img.bboxNorm a.maxId [] with hb | hb
    · exact hbox _ hb
    · rw [hb]; simp

lemma lossMask_nonneg (batch : List Image) (m : ℕ)
    (hmask : ∀ img ∈ batch, ∀ g ∈ img.masks, GridIn01 g)
    (hbox : ∀ img ∈ batch, ∀ b ∈ img.bboxNorm,
      b.getD 0 0 ≤ b.getD 2 0 ∧ b.getD 1 0 ≤ b.getD 3 0) :
    0 ≤ lossMask batch m := by
  unfold lossMask
  apply div_nonneg _ (by positivity)
  apply List.sum_nonneg
  intro x hx
  rcases List.mem_map.mp hx with ⟨img, himg, rfl⟩
  apply List.sum_nonneg
  intro y hy
  rcases List.mem_map.mp hy with ⟨a, _, rfl⟩
  exact anchorMaskLoss_nonneg img a (hmask img himg) (hbox img himg)

lemma binarize01 {x : ℝ} (h0 : 0 ≤ x) (h1 : x ≤ 1) :
    0 ≤ binarize x ∧ binarize x ≤ 1 := by
  unfold binarize castInt
  rw [if_pos (by linarith)]
  have hfl : (0 : ℤ) ≤ ⌊x + 0.5⌋ := Int.floor_nonneg.mpr (by linarith)
  have hfu : ⌊x + 0.5⌋ ≤ 1 := by
    have : ⌊x + 0.5⌋ ≤ ⌊(1.5 : ℝ)⌋ := Int.floor_mono (by linarith)
    have h15 : (⌊(1.5 : ℝ)⌋ : ℤ) = 1 := by norm_num
    omega
  constructor <;> exact_mod_cast by assumption

lemma binGrid01 {g : Grid} (h : GridIn01 g) : GridIn01 (binGrid g) := by
  intro row hrow v hv
  rcases List.mem_map.mp hrow with ⟨r, hr, rfl⟩
  rcases List.mem_map.mp hv with ⟨x, hx, rfl⟩
  exact binarize01 (h r hr x hx).1 (h r hr x hx).2

lemma zeroLike_channel01 (s : List Grid) : ∀ ch ∈ zeroLike s, GridIn01 ch := by
  intro ch hch row hrow v hv
  rcases List.mem_map.mp hch with ⟨g, _, rfl⟩
  rcases List.mem_map.mp hrow with ⟨r, _, rfl⟩
  rcases List.mem_map.mp hv with ⟨_, _, rfl⟩
  norm_num

lemma mem_foldl_set (g : ℕ × Grid → Grid) (l : List (ℕ × Grid))
    (base : List Grid) (ch : Grid)
    (h : ch ∈ l.foldl (fun acc p => acc.set p.1 (g p)) base) :
    ch ∈ base ∨ ∃ p ∈ l, ch = g p := by
  induction l generalizing base with
  | nil => exact Or.inl h
  | cons p t ih =>
    rcases ih (base.set p.1 (g p)) h with hb | ⟨q, hq, rfl⟩
    · rcases List.mem_or_eq_of_mem_set hb with hb' | rfl
      · exact Or.inl hb'
      · exact Or.inr ⟨p, List.mem_cons_self p t, rfl⟩
    · exact Or.inr ⟨q, List.mem_cons_of_mem p hq, rfl⟩

lemma segTarget01 (resize : Grid → ℕ → Grid) (n : ℕ) (img : Image)
    (hres : ∀ g k, GridIn01 g → GridIn01 (resize g k))
    (hmask : ∀ g ∈ img.masks, GridIn01 g) :
    ∀ ch ∈ segTarget resize n img, GridIn01 ch := by
  intro ch hch
  rcases mem_foldl_set _ _ _ ch hch with hz | ⟨p, hp, rfl⟩
  · exact zeroLike_channel01 img.seg ch hz
  · apply binGrid01
    apply hres
    apply hmask
    exact List.mem_of_mem_take (List.of_mem_zip hp).2

lemma sumBCEcm_nonneg {gt seg : List Grid} (h : ∀ ch ∈ gt, GridIn01 ch) :
    0 ≤ sumBCEcm gt seg := by
  unfold sumBCEcm
  apply List.sum_nonneg
  intro x hx
  rcases mem_zipWith hx with ⟨gc, hgc, sc, _, rfl⟩
  exact gridSum_nonneg (bceGrid_entry_nonneg (h gc hgc))

lemma lossSeg_nonneg (resize : Grid → ℕ → Grid) (batch : List Image)
    (hres : ∀ g k, GridIn01 g → GridIn01 (resize g k))
    (hmask : ∀ img ∈ batch, ∀ g ∈ img.masks, GridIn01 g) :
    0 ≤ lossSeg resize batch := by
  unfold lossSeg
  apply div_nonneg _ (by positivity)
  apply div_nonneg _ (by positivity)
  apply List.sum_nonneg
  intro x hx
  rcases List.mem_map.mp hx with ⟨img, himg, rfl⟩
  exact sumBCEcm_nonneg (segTarget01 _ _ _ hres (hmask img himg))

/-- C9: on valid inputs — binary ground-truth masks, valid corner-form
boxes, a resize that keeps mask values inside `[0, 1]`, at least one
positive anchor and a nonempty batch (with no positives resp. an empty
batch the source's divisions are 0/0, the defect recorded with C2) — all
four component losses are non-negative. -/
theorem C9_losses_nonneg (resize : Grid → ℕ → Grid) (batch : List Image)
    (C r m : ℕ)
    (hmask : ∀ img ∈ batch, ∀ g ∈ img.masks, GridIn01 g)
    (hbox : ∀ img ∈ batch, ∀ b ∈ img.bboxNorm,
      b.getD 0 0 ≤ b.getD 2 0 ∧ b.getD 1 0 ≤ b.getD 3 0)
    (hres : ∀ g k, GridIn01 g → GridIn01 (resize g k))
    (hpos : 0 < numPos (joinAnchors batch)) (hB : 0 < batch.length) :
    0 ≤ lossLoc (joinAnchors batch) ∧
    0 ≤ lossConf C r (joinAnchors batch) ∧
    0 ≤ lossMask batch m ∧
    0 ≤ lossSeg resize batch :=
  ⟨lossLoc_nonneg _, lossConf_nonneg C r _, lossMask_nonneg batch m hmask hbox,
    lossSeg_nonneg resize batch hres hmask⟩

/-- A valid one-anchor, one-object image for the C9 witness. -/
def c9img : Image :=
  { anchors := [{ predCls := [0], predOff := [0, 0, 0, 0], predCoef := [1],
                  gtCls := 0, gtOff := [0, 0, 0, 0], pos := 1, maxId := 0 }],
    proto := [[[1]]], seg := [[[0]]], masks := [[[1]]], classes := [0],
    numObj := 1, bboxNorm := [[0, 0, 1, 1]] }

/-- Witness for C9 at the concrete valid batch. -/
theorem C9_losses_nonneg_witness :
    0 ≤ lossLoc (joinAnchors [c9img]) ∧
    0 ≤ lossConf 1 3 (joinAnchors [c9img]) ∧
    0 ≤ lossMask [c9img] 100 ∧
    0 ≤ lossSeg (fun g _ => g) [c9img] := by
  apply C9_losses_nonneg (fun g _ => g) [c9img] 1 3 100
  · intro img himg g hg row hrow v hv
    simp only [List.mem_singleton] at himg
    subst himg
    simp only [c9img, List.mem_singleton] at hg
    subst hg
    simp only [List.mem_singleton] at hrow
    subst hrow
    simp only [List.mem_singleton] at hv
    subst hv
    norm_num
  · intro img himg b hb
    simp only [List.mem_singleton] at himg
    subst himg
    simp only [c9img, List.mem_singleton] at hb
    subst hb
    norm_num
  · intro g k hg
    exact hg
  · decide
  · decide

end Yolact
